import Mathlib

/-!
Verification of the traffic-obfuscation subsystem of a metadata-resistant
network stack.  The definitions below are a shallow embedding of
`core/obfuscation.py` (classes `TrafficObfuscator` and `TimingObfuscator`)
and `config/settings.py` (`Settings._validate_settings`).

Messages are byte sequences, modelled as `List ℕ` of byte values.
Randomness (`random.random`, `random.randint`, `random.uniform`,
`random.gauss`, `os.urandom`) is modelled by passing each drawn value as an
explicit argument; clock reads (`time.time`) likewise.  Python floats are
modelled as exact rationals.  A Python-level exception (`math.log2` domain
error, `bytes * float` type error) is modelled as `none` of an `Option`
result.
-/

namespace MRN

/-- The padding marker `b"||PADDING||"` from `TrafficObfuscator.add_padding`,
as byte values. -/
def paddingDelim : List ℕ := [124, 124, 80, 65, 68, 68, 73, 78, 71, 124, 124]

/-- The size-normalization marker `b"||SIZE||"` from
`TrafficObfuscator.normalize_message_size`. -/
def sizeDelim : List ℕ := [124, 124, 83, 73, 90, 69, 124, 124]

/-- The decoy marker `b"||DUMMY||"` from
`TimingObfuscator.create_dummy_message`. -/
def dummyMarker : List ℕ := [124, 124, 68, 85, 77, 77, 89, 124, 124]

/-- The filler byte `b"X"` used by `normalize_message_size`. -/
def fillerByte : ℕ := 88

/-- Index of the first occurrence of `d` as a contiguous block of `m`
(`none` if absent).  This is the position at which the Python
`m.split(d, 1)` cuts, and `(firstOccur d m).isSome` is the Python `d in m`. -/
def firstOccur (d : List ℕ) : List ℕ → Option ℕ
  | [] => if d = [] then some 0 else none
  | a :: t => if d <+: a :: t then some 0 else (firstOccur d t).map (· + 1)

/-- the Python `d in m` for byte strings. -/
def containsSub (d m : List ℕ) : Bool := (firstOccur d m).isSome

/-- Python expression `m.split(d, 1)[0]` if `d in m`, else `m`: the common shape of
`remove_padding` and `denormalize_message_size`. -/
def stripAfter (d m : List ℕ) : List ℕ :=
  match firstOccur d m with
  | some i => m.take i
  | none => m

/-- Embeds `TrafficObfuscator.remove_padding`. -/
def removePadding (m : List ℕ) : List ℕ := stripAfter paddingDelim m

/-- Embeds `TrafficObfuscator.denormalize_message_size`. -/
def denormalizeMessageSize (m : List ℕ) : List ℕ := stripAfter sizeDelim m

/-- The Bernoulli decision `random.random() < padding_probability` in
`add_padding`, with the uniform draw `r` from `[0, 1)` passed explicitly. -/
def shouldPad (p r : ℚ) : Bool := r < p

/-- Embeds `TrafficObfuscator.add_padding`: when the Bernoulli draw fires, append
the padding marker followed by the `os.urandom` block `padBytes`. -/
def addPadding (doPad : Bool) (padBytes m : List ℕ) : List ℕ :=
  if doPad then m ++ paddingDelim ++ padBytes else m

/-- Embeds `TimingObfuscator.is_dummy_message`, that is `message.startswith(b"||DUMMY||")`. -/
def isDummyMessage (m : List ℕ) : Bool := dummyMarker.isPrefixOf m

/-- Embeds `TimingObfuscator.create_dummy_message`, with the random payload passed
explicitly: the decoy marker followed by the payload. -/
def createDummyMessage (payload : List ℕ) : List ℕ := dummyMarker ++ payload

/-- The decoy payload size `max(20, min(size, avg_size*2))` computed by
`create_dummy_message` from the (already truncated-to-int) Gaussian draw
`g`. -/
def dummySize (avg g : ℤ) : ℤ := max 20 (min g (2 * avg))

/-- Embeds `deque(maxlen=100).append`: the size history keeps the most recent 100
entries, evicting the oldest. -/
def pushHistory (hist : List ℕ) (n : ℕ) : List ℕ :=
  let h2 := hist ++ [n]
  if 100 < h2.length then h2.drop (h2.length - 100) else h2

/-- Embeds `sum(self.message_history) / len(self.message_history)`. -/
def avgSize (hist : List ℕ) : ℚ := (hist.sum : ℚ) / (hist.length : ℚ)

/-- Fuel-driven ceiling base-2 logarithm on naturals (structurally
recursive so that concrete instances reduce inside the kernel). -/
def clog2Fuel : ℕ → ℕ → ℕ
  | 0, _ => 0
  | fuel + 1, n => if n ≤ 1 then 0 else clog2Fuel fuel ((n + 1) / 2) + 1

/-- Ceiling base-2 logarithm on naturals: least `k` with `n ≤ 2 ^ k`. -/
def clog2 (n : ℕ) : ℕ := clog2Fuel n n

/-- Fuel-driven floor base-2 logarithm on naturals. -/
def log2Fuel : ℕ → ℕ → ℕ
  | 0, _ => 0
  | fuel + 1, n => if n ≤ 1 then 0 else log2Fuel fuel (n / 2) + 1

/-- Floor base-2 logarithm on naturals. -/
def log2 (n : ℕ) : ℕ := log2Fuel n n

/-- Embeds `math.ceil(math.log2 q)` for a positive rational `q`, as an integer
exponent (negative when `q < 1`, exactly as the Python
`math.ceil(math.log2(avg_size))` is negative for a mean below 1). -/
def ceilLog2 (q : ℚ) : ℤ :=
  if 1 ≤ q then (clog2 ⌈q⌉.toNat : ℤ) else -(log2 ⌊q⁻¹⌋.toNat : ℤ)

/-- The bucket `2 ** math.ceil(math.log2(avg_size))` of
`normalize_message_size`, in the case where the exponent is non-negative
and the bucket therefore an integer. -/
def targetSize (hist : List ℕ) : ℕ := 2 ^ (ceilLog2 (avgSize hist)).toNat

/-- Embeds `TrafficObfuscator.normalize_message_size`, acting on the explicit size
history and returning the new history together with the emitted message.
`none` models the two exception paths of the Python code: `math.log2(0)`
(mean of recorded sizes is zero) raises `ValueError`, and for a fractional
bucket `2 ** k` with `k < 0` an empty message reaches
`b"X" * padding_needed` with a float operand, raising `TypeError`. -/
def normalizeMessageSize (hist m : List ℕ) : Option (List ℕ × List ℕ) :=
  if hist.isEmpty then some (pushHistory hist m.length, m)
  else
    let avg := avgSize hist
    if avg ≤ 0 then none
    else
      let k := ceilLog2 avg
      if 0 ≤ k then
        let target := 2 ^ k.toNat
        if m.length < target then
          some (pushHistory hist m.length,
            m ++ sizeDelim ++ List.replicate (target - m.length) fillerByte)
        else some (pushHistory hist m.length, m)
      else
        if m.length = 0 then none
        else some (pushHistory hist m.length, m)

/-- The mutable state of `TrafficObfuscator` relevant to frequency hopping:
`last_hop_time` and `current_port_offset`. -/
structure HopState where
  lastHopTime : ℚ
  portOffset : ℕ
deriving DecidableEq

/-- Embeds `TrafficObfuscator.get_next_frequency_hop`: the clock read `now` and
the draws `threshold = random.uniform(hop_min, hop_max)` and
`draw = random.randint(1, 10)` are passed explicitly.  Returns the emitted
offset (or `none`) together with the successor state. -/
def getNextFrequencyHop (st : HopState) (now threshold : ℚ) (draw : ℕ) :
    Option ℕ × HopState :=
  if threshold < now - st.lastHopTime then (some draw, ⟨now, draw⟩)
  else (none, st)

/-- A sequence of frequency-hop checks: each list entry carries the clock
read, the threshold draw, and the offset draw for one call. -/
def runHops (st : HopState) : List (ℚ × ℚ × ℕ) → List (Option ℕ) × HopState
  | [] => ([], st)
  | c :: rest =>
    let r := getNextFrequencyHop st c.1 c.2.1 c.2.2
    let rr := runHops r.2 rest
    (r.1 :: rr.1, rr.2)

/-- Embeds `TimingObfuscator.wait_for_next_interval`, returning the slept duration
and the new `last_send_time`.  `tAfter` is the `time.time()` reading taken
after the wait completes (the value stored by the final assignment);
`jitter = random.uniform(min_jitter, max_jitter)` is passed explicitly.
A `fixed_interval` of `0` models the Python falsy `None`/`0` early return. -/
def waitForNextInterval (fixedInterval lastSend now jitter tAfter : ℚ) :
    ℚ × ℚ :=
  if fixedInterval = 0 then (0, lastSend)
  else if lastSend = 0 ∨ fixedInterval ≤ now - lastSend then (0, now)
  else (max 0 (fixedInterval - (now - lastSend) + jitter), tAfter)

/-- The caller-supplied numeric configuration checked by
`Settings._validate_settings`. -/
structure SettingsVals where
  minDelay : ℚ
  maxDelay : ℚ
  minPadding : ℤ
  maxPadding : ℤ
  minHop : ℚ
  maxHop : ℚ
  minJitter : ℚ
  maxJitter : ℚ
  padProb : ℚ
  dummyProb : ℚ
deriving DecidableEq

/-- First check of `_validate_settings`: `MIN_DELAY >= MAX_DELAY` is
repaired by setting `MAX_DELAY = MIN_DELAY + 0.5`. -/
def validateDelay (s : SettingsVals) : SettingsVals :=
  if s.maxDelay ≤ s.minDelay then { s with maxDelay := s.minDelay + 1/2 } else s

/-- Second check: `MIN_PADDING >= MAX_PADDING` is repaired by setting
`MAX_PADDING = MIN_PADDING + 100`. -/
def validatePaddingBounds (s : SettingsVals) : SettingsVals :=
  if s.maxPadding ≤ s.minPadding then { s with maxPadding := s.minPadding + 100 } else s

/-- Third check: `MIN_HOP_INTERVAL >= MAX_HOP_INTERVAL` is repaired by
setting `MAX_HOP_INTERVAL = MIN_HOP_INTERVAL + 30`. -/
def validateHop (s : SettingsVals) : SettingsVals :=
  if s.maxHop ≤ s.minHop then { s with maxHop := s.minHop + 30 } else s

/-- Fourth check: `PADDING_PROBABILITY` outside `[0, 1]` is clamped. -/
def validatePadProb (s : SettingsVals) : SettingsVals :=
  if s.padProb < 0 ∨ 1 < s.padProb then
    { s with padProb := max 0 (min 1 s.padProb) } else s

/-- Fifth check: `DUMMY_MSG_PROBABILITY` outside `[0, 1]` is clamped. -/
def validateDummyProb (s : SettingsVals) : SettingsVals :=
  if s.dummyProb < 0 ∨ 1 < s.dummyProb then
    { s with dummyProb := max 0 (min 1 s.dummyProb) } else s

/-- Embeds `Settings._validate_settings`: the five checks run in sequence.  The
jitter bounds are not touched by the Python code. -/
def validateSettings (s : SettingsVals) : SettingsVals :=
  validateDummyProb (validatePadProb (validateHop (validatePaddingBounds (validateDelay s))))

/-! ## Properties of `firstOccur` and the stripping transforms -/

theorem firstOccur_spec_some {d : List ℕ} :
    ∀ {m : List ℕ} {i : ℕ}, firstOccur d m = some i →
      d <+: m.drop i ∧ ∀ j, j < i → ¬ d <+: m.drop j := by
  intro m
  induction m with
  | nil =>
    intro i h
    simp only [firstOccur] at h
    split at h
    · next hd =>
      injection h with h0
      subst hd
      exact ⟨by simp [← h0], by omega⟩
    · exact absurd h (by simp)
  | cons a t ih =>
    intro i h
    simp only [firstOccur] at h
    split at h
    · next hp =>
      injection h with h0
      refine ⟨by simpa [← h0] using hp, ?_⟩
      omega
    · next hp =>
      obtain ⟨i', hi', rfl⟩ : ∃ i', firstOccur d t = some i' ∧ i' + 1 = i := by
        cases hfo : firstOccur d t <;> rw [hfo] at h
        · exact absurd h (by simp)
        · exact ⟨_, rfl, by injection h⟩
      obtain ⟨h1, h2⟩ := ih hi'
      refine ⟨by simpa using h1, ?_⟩
      intro j hj
      cases j with
      | zero => simpa using hp
      | succ j' => simpa using h2 j' (by omega)

theorem firstOccur_spec_none {d : List ℕ} (hd : d ≠ []) :
    ∀ {m : List ℕ}, firstOccur d m = none → ∀ j, ¬ d <+: m.drop j := by
  intro m
  induction m with
  | nil =>
    intro _ j
    simp [List.drop_nil, List.prefix_nil, hd]
  | cons a t ih =>
    intro h j
    simp only [firstOccur] at h
    split at h
    · exact absurd h (by simp)
    · next hp =>
      cases j with
      | zero => simpa using hp
      | succ j' =>
        have ht : firstOccur d t = none := by
          cases hfo : firstOccur d t with
          | none => rfl
          | some v => rw [hfo] at h; simp at h
        simpa using ih ht j'

theorem firstOccur_eq_some_of {d m : List ℕ} {i : ℕ} (hd : d ≠ [])
    (hat : d <+: m.drop i) (hmin : ∀ j, j < i → ¬ d <+: m.drop j) :
    firstOccur d m = some i := by
  cases hfo : firstOccur d m with
  | none => exact absurd hat (firstOccur_spec_none hd hfo i)
  | some i' =>
    obtain ⟨h1, h2⟩ := firstOccur_spec_some hfo
    rcases lt_trichotomy i' i with hlt | heq | hgt
    · exact absurd h1 (hmin i' hlt)
    · rw [heq]
    · exact absurd hat (h2 i hgt)

theorem firstOccur_take_eq_none {d m : List ℕ} {i : ℕ} (hd : d ≠ [])
    (h : firstOccur d m = some i) : firstOccur d (m.take i) = none := by
  obtain ⟨_, h2⟩ := firstOccur_spec_some h
  cases hfo : firstOccur d (m.take i) with
  | none => rfl
  | some j =>
    exfalso
    obtain ⟨g1, _⟩ := firstOccur_spec_some hfo
    by_cases hji : j < i
    · refine h2 j hji ?_
      refine g1.trans ?_
      rw [List.drop_take]
      exact ( List.take_prefix _ _).trans ((m.drop j).prefix_refl)
    · have hnil : (m.take i).drop j = [] := by
        apply List.drop_eq_nil_of_le
        simp only [List.length_take]
        omega
      rw [hnil] at g1
      exact hd (List.prefix_nil.mp g1)

theorem stripAfter_of_some {d m : List ℕ} {i : ℕ}
    (h : firstOccur d m = some i) : stripAfter d m = m.take i := by
  simp [stripAfter, h]

theorem stripAfter_of_none {d m : List ℕ}
    (h : firstOccur d m = none) : stripAfter d m = m := by
  simp [stripAfter, h]

theorem stripAfter_front_of_input (d m : List ℕ) : stripAfter d m <+: m := by
  unfold stripAfter
  cases hfo : firstOccur d m
  · exact m.prefix_refl
  · exact List.take_prefix _ _

theorem stripAfter_idem (d : List ℕ) (hd : d ≠ []) (m : List ℕ) :
    stripAfter d (stripAfter d m) = stripAfter d m := by
  cases hfo : firstOccur d m with
  | none => rw [stripAfter_of_none hfo, stripAfter_of_none hfo]
  | some i =>
    rw [stripAfter_of_some hfo, stripAfter_of_none (firstOccur_take_eq_none hd hfo)]

/-- Claim C10: `remove_padding` and `denormalize_message_size` each return
the prefix of the input strictly before the first occurrence of their
delimiter (the input itself when the delimiter is absent); both are
idempotent. -/
theorem C10_strip_transforms (m : List ℕ) :
    removePadding m <+: m
    ∧ denormalizeMessageSize m <+: m
    ∧ removePadding (removePadding m) = removePadding m
    ∧ denormalizeMessageSize (denormalizeMessageSize m) = denormalizeMessageSize m
    ∧ (∀ i, firstOccur paddingDelim m = some i → removePadding m = m.take i)
    ∧ (∀ i, firstOccur sizeDelim m = some i → denormalizeMessageSize m = m.take i)
    ∧ (firstOccur paddingDelim m = none → removePadding m = m)
    ∧ (firstOccur sizeDelim m = none → denormalizeMessageSize m = m) := by
  refine ⟨stripAfter_front_of_input _ m, stripAfter_front_of_input _ m,
    stripAfter_idem _ (by decide) m, stripAfter_idem _ (by decide) m,
    fun i h => stripAfter_of_some h, fun i h => stripAfter_of_some h,
    fun h => stripAfter_of_none h, fun h => stripAfter_of_none h⟩

/-- Witness for C10 at a concrete message: `[1, 2]` contains no padding
delimiter, so `remove_padding` returns it unchanged. -/
theorem C10_witness : removePadding [1, 2] = [1, 2] :=
  (C10_strip_transforms [1, 2]).2.2.2.2.2.2.1 (by decide)

/-! ## Padding round trip (C4) and decoy recognition (C9) -/

theorem containsSub_eq_false_iff {d m : List ℕ} :
    containsSub d m = false ↔ firstOccur d m = none := by
  unfold containsSub
  cases firstOccur d m <;> simp

theorem pfx_of_append {p a b : List ℕ} (h : p <+: a ++ b) :
    p <+: a ∨ a <+: p := by
  have hp := List.prefix_iff_eq_take.mp h
  rw [List.take_append_eq_append_take] at hp
  rcases le_or_lt p.length a.length with hle | hlt
  · left
    rw [Nat.sub_eq_zero_of_le hle, List.take_zero, List.append_nil] at hp
    exact List.prefix_iff_eq_take.mpr hp
  · right
    rw [List.take_of_length_le hlt.le] at hp
    rw [hp]
    exact List.prefix_append _ _

theorem firstOccur_append_paddingDelim (m r : List ℕ)
    (hnc : ∀ j, ¬ paddingDelim <+: m.drop j)
    (h9 : ¬ paddingDelim.take 9 <:+ m)
    (h10 : ¬ paddingDelim.take 10 <:+ m) :
    firstOccur paddingDelim (m ++ (paddingDelim ++ r)) = some m.length := by
  apply firstOccur_eq_some_of (by decide)
  · rw [List.drop_left]
    exact List.prefix_append _ _
  · intro j hj hpfx
    rw [List.drop_append_eq_append_drop, Nat.sub_eq_zero_of_le (le_of_lt hj),
      List.drop_zero] at hpfx
    rcases pfx_of_append hpfx with hc | hc
    · exact hnc j hc
    · have hPlen : paddingDelim.length = 11 := rfl
      have hklen : (m.drop j).length = m.length - j := List.length_drop j m
      have hle11 : m.length - j ≤ 11 := by
        have hl := hc.length_le
        rw [hklen, hPlen] at hl
        exact hl
      have hdropj : m.drop j = paddingDelim.take (m.length - j) := by
        have hq := List.prefix_iff_eq_take.mp hc
        rwa [hklen] at hq
      have h1 := List.prefix_iff_eq_take.mp hpfx
      rw [hPlen, List.take_append_eq_append_take, hklen,
        List.take_of_length_le (by rw [hklen]; exact hle11),
        List.take_append_eq_append_take, hPlen,
        show 11 - (m.length - j) - 11 = 0 by omega, List.take_zero,
        List.append_nil, hdropj] at h1
      obtain ⟨k, hk1, hk11, hdk, heqk⟩ :
          ∃ k, 1 ≤ k ∧ k ≤ 11 ∧ m.drop j = paddingDelim.take k ∧
            paddingDelim = paddingDelim.take k ++ paddingDelim.take (11 - k) :=
        ⟨m.length - j, by omega, hle11, hdropj, h1⟩
      interval_cases k
      · exact absurd heqk (by decide)
      · exact absurd heqk (by decide)
      · exact absurd heqk (by decide)
      · exact absurd heqk (by decide)
      · exact absurd heqk (by decide)
      · exact absurd heqk (by decide)
      · exact absurd heqk (by decide)
      · exact absurd heqk (by decide)
      · exact h9 (hdk ▸ List.drop_suffix j m)
      · exact h10 (hdk ▸ List.drop_suffix j m)
      · exact hnc j (by rw [hdk]; decide)

/-- Claim C4 (amended): for every message that neither contains the padding
delimiter nor ends in one of its two self-overlapping truncations
`b"||PADDING"`/`b"||PADDING|"`, the padding round trip restores the message
exactly, whichever way the Bernoulli draw goes; with
`padding_probability = 1.0` the draw always fires and `add_padding` yields
exactly the message, the delimiter, then the random block. -/
theorem C4_unpad_pad (m r : List ℕ) (rv : ℚ)
    (hm : containsSub paddingDelim m = false)
    (h9 : ¬ paddingDelim.take 9 <:+ m)
    (h10 : ¬ paddingDelim.take 10 <:+ m)
    (hrv1 : rv < 1) :
    shouldPad 1 rv = true
    ∧ addPadding (shouldPad 1 rv) r m = m ++ paddingDelim ++ r
    ∧ removePadding (addPadding true r m) = m
    ∧ removePadding (addPadding false r m) = m := by
  have hnone : firstOccur paddingDelim m = none := containsSub_eq_false_iff.mp hm
  have hnc : ∀ j, ¬ paddingDelim <+: m.drop j :=
    firstOccur_spec_none (by decide) hnone
  have hpad : shouldPad 1 rv = true := by
    rw [shouldPad]
    exact decide_eq_true hrv1
  refine ⟨hpad, by rw [hpad, addPadding, if_pos rfl], ?_, ?_⟩
  · have hrw : addPadding true r m = m ++ (paddingDelim ++ r) := by
      rw [addPadding, if_pos rfl, List.append_assoc]
    rw [hrw, removePadding,
      stripAfter_of_some (firstOccur_append_paddingDelim m r hnc h9 h10)]
    exact List.take_left m (paddingDelim ++ r)
  · have hrw : addPadding false r m = m := rfl
    rw [hrw, removePadding, stripAfter_of_none hnone]

/-- Witness for C4 at the spec scenario: `m = b"hi"`, a 10-byte padding
block, Bernoulli draw `0 < 1.0`. -/
theorem C4_witness :
    shouldPad 1 0 = true
    ∧ addPadding (shouldPad 1 0) (List.replicate 10 0) [104, 105]
      = [104, 105] ++ paddingDelim ++ List.replicate 10 0
    ∧ removePadding (addPadding true (List.replicate 10 0) [104, 105]) = [104, 105]
    ∧ removePadding (addPadding false (List.replicate 10 0) [104, 105]) = [104, 105] :=
  C4_unpad_pad [104, 105] (List.replicate 10 0) 0 (by decide) (by decide)
    (by decide) (by decide)

/-- Counterexample to C4 as stated: `m = b"||PADDING|"` does not contain
the padding delimiter, yet after padding fires, removal cuts at the
overlap of the tail of `m` with the appended delimiter and returns the empty
message instead of restoring `m`. -/
theorem C4_counterexample :
    containsSub paddingDelim [124, 124, 80, 65, 68, 68, 73, 78, 71, 124] = false
    ∧ removePadding (addPadding true (List.replicate 50 0)
        [124, 124, 80, 65, 68, 68, 73, 78, 71, 124]) = []
    ∧ ([] : List ℕ) ≠ [124, 124, 80, 65, 68, 68, 73, 78, 71, 124] := by
  decide

theorem isDummy_addPadding_eq_false (m r : List ℕ) (b : Bool)
    (h7 : ¬ dummyMarker.take 7 <+: m) :
    isDummyMessage (addPadding b r m) = false := by
  cases b with
  | false =>
    have hrw : addPadding false r m = m := rfl
    rw [hrw, isDummyMessage, Bool.eq_false_iff]
    intro htrue
    exact h7 (( List.take_prefix 7 dummyMarker).trans
      ( List.isPrefixOf_iff_prefix.mp htrue))
  | true =>
    have hrw : addPadding true r m = m ++ (paddingDelim ++ r) := by
      rw [addPadding, if_pos rfl, List.append_assoc]
    rw [hrw, isDummyMessage, Bool.eq_false_iff]
    intro htrue
    have hpfx : dummyMarker <+: m ++ (paddingDelim ++ r) :=
      List.isPrefixOf_iff_prefix.mp htrue
    rcases pfx_of_append hpfx with hc | hc
    · exact h7 (( List.take_prefix 7 dummyMarker).trans hc)
    · have hm9 : m.length ≤ 9 := by
        have hl := hc.length_le
        simpa using hl
      have hmtake : m = dummyMarker.take m.length := List.prefix_iff_eq_take.mp hc
      by_cases h7le : 7 ≤ m.length
      · apply h7
        have hseven : dummyMarker.take 7 = m.take 7 := by
          rw [hmtake, List.take_take]
          congr 1
          omega
        rw [hseven]
        exact List.take_prefix 7 m
      · push_neg at h7le
        have hDlen : dummyMarker.length = 9 := rfl
        have h1 := List.prefix_iff_eq_take.mp hpfx
        rw [hDlen, List.take_append_eq_append_take,
          List.take_of_length_le (by omega),
          List.take_append_eq_append_take,
          show paddingDelim.length = 11 from rfl,
          show 9 - m.length - 11 = 0 by omega, List.take_zero,
          List.append_nil] at h1
        obtain ⟨k, hk6, heqk⟩ :
            ∃ k, k ≤ 6 ∧ dummyMarker = dummyMarker.take k ++ paddingDelim.take (9 - k) := by
          refine ⟨m.length, by omega, ?_⟩
          rw [← hmtake]
          exact h1
        interval_cases k
        · exact absurd heqk (by decide)
        · exact absurd heqk (by decide)
        · exact absurd heqk (by decide)
        · exact absurd heqk (by decide)
        · exact absurd heqk (by decide)
        · exact absurd heqk (by decide)
        · exact absurd heqk (by decide)

/-- Claim C9 (amended): every created decoy is recognized by
`is_dummy_message`; the decoy payload size is the Gaussian draw clamped as
`max(20, min(draw, 2x))`, hence in `[20, 2x]` whenever `2x ≥ 20` (for
`2x < 20` the lower clamp of 20 wins); and a padded real message is never
misclassified provided it does not begin with the 7-byte truncation
`b"||DUMMY"` of the decoy marker. -/
theorem C9_decoy (x g : ℤ) (payload m r : List ℕ) (b : Bool)
    (hpay : payload.length = (dummySize x g).toNat)
    (h7 : ¬ dummyMarker.take 7 <+: m) :
    isDummyMessage (createDummyMessage payload) = true
    ∧ 20 ≤ dummySize x g
    ∧ (20 ≤ 2 * x → dummySize x g ≤ 2 * x)
    ∧ (createDummyMessage payload).length = 9 + (dummySize x g).toNat
    ∧ isDummyMessage (addPadding b r m) = false := by
  refine ⟨?_, ?_, ?_, ?_, isDummy_addPadding_eq_false m r b h7⟩
  · rw [isDummyMessage, createDummyMessage]
    exact List.isPrefixOf_iff_prefix.mpr (List.prefix_append _ _)
  · rw [dummySize]
    omega
  · intro hx
    rw [dummySize]
    omega
  · rw [createDummyMessage, List.length_append, hpay]
    rfl

/-- Witness for C9: target mean 100, Gaussian draw 50, a real message
`[104]` that is not marker-prefixed. -/
theorem C9_witness :
    isDummyMessage (createDummyMessage (List.replicate 50 0)) = true
    ∧ 20 ≤ dummySize 100 50
    ∧ ((20 : ℤ) ≤ 2 * 100 → dummySize 100 50 ≤ 2 * 100)
    ∧ (createDummyMessage (List.replicate 50 0)).length = 9 + (dummySize 100 50).toNat
    ∧ isDummyMessage (addPadding true [] [104]) = false :=
  C9_decoy 100 50 (List.replicate 50 0) [104] [] true (by decide) (by decide)

/-- Counterexample to C9 as stated: the real message `b"||DUMMY"` (a
truncation of the decoy marker), once the padding branch fires, is
classified as a decoy by the receiver. -/
theorem C9_counterexample :
    isDummyMessage (addPadding true (List.replicate 50 0)
      [124, 124, 68, 85, 77, 77, 89]) = true := by
  decide

/-! ## Frequency hopping (C3, C6) -/

/-- Claim C3 (amended): a run of frequency-hop checks in which the elapsed
time stays at most `hop_min` (the lower end of the hop interval, hence at
most any threshold drawn from it) never emits an offset and never mutates
the hop state.  Elapsed time merely below `hop_max` does not suffice,
since the redrawn threshold may fall below the elapsed time. -/
theorem C3_no_hop_below_min (st : HopState) (hopMin : ℚ)
    (calls : List (ℚ × ℚ × ℕ))
    (hc : ∀ c ∈ calls, hopMin ≤ c.2.1 ∧ c.1 - st.lastHopTime ≤ hopMin) :
    runHops st calls = (List.replicate calls.length none, st) := by
  induction calls with
  | nil => rfl
  | cons c rest ih =>
    obtain ⟨h1, h2⟩ := hc c (List.mem_cons_self c rest)
    have hstep : getNextFrequencyHop st c.1 c.2.1 c.2.2 = (none, st) := by
      rw [getNextFrequencyHop, if_neg (not_lt.mpr (le_trans h2 h1))]
    have hrest := ih (fun c2 hmem => hc c2 (List.mem_cons_of_mem c hmem))
    simp only [runHops, hstep, hrest, List.length_cons, List.replicate_succ]

/-- Witness for C3: from a fresh state, two checks at elapsed times 3 and 5
with thresholds 7 and 5 drawn from `[5, 15]` emit nothing. -/
theorem C3_witness :
    runHops ⟨0, 0⟩ [(3, 7, 2), (5, 5, 9)]
      = (List.replicate ([(3, 7, 2), (5, 5, 9)] : List (ℚ × ℚ × ℕ)).length none,
        (⟨0, 0⟩ : HopState)) :=
  C3_no_hop_below_min ⟨0, 0⟩ 5 [(3, 7, 2), (5, 5, 9)] (by norm_num)

/-- Counterexample to C3 as stated: with hop interval `[5, 15]`, elapsed
time 10 is strictly below `hop_max = 15`, yet a threshold draw of 6 (legal
for `uniform(5, 15)`) triggers a hop. -/
theorem C3_counterexample :
    (5 : ℚ) ≤ 6 ∧ (6 : ℚ) ≤ 15
    ∧ (10 : ℚ) - (HopState.mk 0 0).lastHopTime < 15
    ∧ (getNextFrequencyHop ⟨0, 0⟩ 10 6 3).1 = some 3 := by
  norm_num [getNextFrequencyHop]

/-- Claim C6: when the elapsed time exceeds `hop_max` (hence any legal
threshold draw), a single check emits the freshly drawn offset (an integer
in `[1, 10]`, by the range of `random.randint(1, 10)`) and resets
`last_hop_time` to the current clock reading; when the elapsed time does
not exceed the drawn threshold, the check returns `None` and leaves the
state (both `last_hop_time` and `current_port_offset`) unchanged. -/
theorem C6_hop_emit (st : HopState) (hopMax now thr : ℚ) (d : ℕ)
    (hthr : thr ≤ hopMax) (hd1 : 1 ≤ d) (hd2 : d ≤ 10) :
    (hopMax < now - st.lastHopTime →
      getNextFrequencyHop st now thr d = (some d, ⟨now, d⟩) ∧ 1 ≤ d ∧ d ≤ 10)
    ∧ (now - st.lastHopTime ≤ thr →
      getNextFrequencyHop st now thr d = (none, st)) := by
  constructor
  · intro hgt
    exact ⟨by rw [getNextFrequencyHop, if_pos (lt_of_le_of_lt hthr hgt)], hd1, hd2⟩
  · intro hle
    rw [getNextFrequencyHop, if_neg (not_lt.mpr hle)]

/-- Witness for C6: elapsed 20 exceeds `hop_max = 15`; threshold draw 15,
offset draw 4. -/
theorem C6_witness :
    ((15 : ℚ) < 20 - (HopState.mk 0 0).lastHopTime →
      getNextFrequencyHop ⟨0, 0⟩ 20 15 4 = (some 4, ⟨20, 4⟩) ∧ 1 ≤ 4 ∧ 4 ≤ 10)
    ∧ (20 - (HopState.mk 0 0).lastHopTime ≤ 15 →
      getNextFrequencyHop ⟨0, 0⟩ 20 15 4 = (none, ⟨0, 0⟩)) :=
  C6_hop_emit ⟨0, 0⟩ 15 20 15 4 (le_refl 15) (by decide) (by decide)

/-! ## Fixed-cadence pacing (C5) -/

/-- Claim C5: with `fixed_interval = 0` (Python falsy) the pacing wait is
always zero; with `fixed_interval = T > 0`, an elapsed gap of at least
`T + jitter_max` incurs no wait, a back-to-back send waits at least
`T - jitter_max`, and in the waiting branch the wait equals
`max(0, T - elapsed + jitter)` and the new `last_send_time` is the clock
reading `tAfter` taken after the wait completes. -/
theorem C5_pacing (T lastSend now jitter tAfter jmin jmax : ℚ)
    (hj1 : jmin ≤ jitter) (hj2 : jitter ≤ jmax) (hj0 : 0 ≤ jmin) :
    (waitForNextInterval 0 lastSend now jitter tAfter).1 = 0
    ∧ (0 < T → T + jmax ≤ now - lastSend →
        (waitForNextInterval T lastSend now jitter tAfter).1 = 0)
    ∧ (0 < T → lastSend ≠ 0 → now = lastSend →
        T - jmax ≤ (waitForNextInterval T lastSend now jitter tAfter).1)
    ∧ (0 < T → lastSend ≠ 0 → now - lastSend < T →
        waitForNextInterval T lastSend now jitter tAfter
          = (max 0 (T - (now - lastSend) + jitter), tAfter)) := by
  have hjmax : 0 ≤ jmax := le_trans hj0 (le_trans hj1 hj2)
  refine ⟨?_, ?_, ?_, ?_⟩
  · rw [waitForNextInterval, if_pos rfl]
  · intro hT hsep
    rw [waitForNextInterval, if_neg (ne_of_gt hT),
      if_pos (Or.inr (by linarith))]
  · intro hT hls hnow
    have hguard : ¬ (lastSend = 0 ∨ T ≤ now - lastSend) := by
      push_neg
      exact ⟨hls, by rw [hnow, sub_self]; linarith⟩
    rw [waitForNextInterval, if_neg (ne_of_gt hT), if_neg hguard]
    show T - jmax ≤ max 0 (T - (now - lastSend) + jitter)
    rw [hnow, sub_self, sub_zero]
    calc T - jmax ≤ T + jitter := by linarith
      _ ≤ max 0 (T + jitter) := le_max_right 0 (T + jitter)
  · intro hT hls hlt
    have hguard : ¬ (lastSend = 0 ∨ T ≤ now - lastSend) := by
      push_neg
      exact ⟨hls, by linarith⟩
    rw [waitForNextInterval, if_neg (ne_of_gt hT), if_neg hguard]

/-- Witness for C5: `T = 1`, a back-to-back send at time 5, jitter 0 drawn
from the degenerate range `[0, 0]`, post-wait clock 7. -/
theorem C5_witness :
    (waitForNextInterval 0 5 5 0 7).1 = 0
    ∧ ((0 : ℚ) < 1 → (1 : ℚ) + 0 ≤ 5 - 5 → (waitForNextInterval 1 5 5 0 7).1 = 0)
    ∧ ((0 : ℚ) < 1 → (5 : ℚ) ≠ 0 → (5 : ℚ) = 5 →
        (1 : ℚ) - 0 ≤ (waitForNextInterval 1 5 5 0 7).1)
    ∧ ((0 : ℚ) < 1 → (5 : ℚ) ≠ 0 → (5 : ℚ) - 5 < 1 →
        waitForNextInterval 1 5 5 0 7 = (max 0 ((1 : ℚ) - (5 - 5) + 0), 7)) :=
  C5_pacing 1 5 5 0 7 0 0 (le_refl 0) (le_refl 0) (le_refl 0)

/-! ## Settings validation (C8) -/

theorem validateDelay_spec (s : SettingsVals) :
    (validateDelay s).minDelay < (validateDelay s).maxDelay
    ∧ (validateDelay s).minPadding = s.minPadding
    ∧ (validateDelay s).maxPadding = s.maxPadding
    ∧ (validateDelay s).minHop = s.minHop
    ∧ (validateDelay s).maxHop = s.maxHop
    ∧ (validateDelay s).minJitter = s.minJitter
    ∧ (validateDelay s).maxJitter = s.maxJitter
    ∧ (validateDelay s).padProb = s.padProb
    ∧ (validateDelay s).dummyProb = s.dummyProb := by
  unfold validateDelay
  split
  · refine ⟨?_, rfl, rfl, rfl, rfl, rfl, rfl, rfl, rfl⟩
    show s.minDelay < s.minDelay + 1/2
    linarith
  · next h =>
    exact ⟨lt_of_not_le h, rfl, rfl, rfl, rfl, rfl, rfl, rfl, rfl⟩

theorem validatePaddingBounds_spec (s : SettingsVals) :
    (validatePaddingBounds s).minPadding < (validatePaddingBounds s).maxPadding
    ∧ (validatePaddingBounds s).minDelay = s.minDelay
    ∧ (validatePaddingBounds s).maxDelay = s.maxDelay
    ∧ (validatePaddingBounds s).minHop = s.minHop
    ∧ (validatePaddingBounds s).maxHop = s.maxHop
    ∧ (validatePaddingBounds s).minJitter = s.minJitter
    ∧ (validatePaddingBounds s).maxJitter = s.maxJitter
    ∧ (validatePaddingBounds s).padProb = s.padProb
    ∧ (validatePaddingBounds s).dummyProb = s.dummyProb := by
  unfold validatePaddingBounds
  split
  · refine ⟨?_, rfl, rfl, rfl, rfl, rfl, rfl, rfl, rfl⟩
    show s.minPadding < s.minPadding + 100
    omega
  · next h =>
    exact ⟨lt_of_not_le h, rfl, rfl, rfl, rfl, rfl, rfl, rfl, rfl⟩

theorem validateHop_spec (s : SettingsVals) :
    (validateHop s).minHop < (validateHop s).maxHop
    ∧ (validateHop s).minDelay = s.minDelay
    ∧ (validateHop s).maxDelay = s.maxDelay
    ∧ (validateHop s).minPadding = s.minPadding
    ∧ (validateHop s).maxPadding = s.maxPadding
    ∧ (validateHop s).minJitter = s.minJitter
    ∧ (validateHop s).maxJitter = s.maxJitter
    ∧ (validateHop s).padProb = s.padProb
    ∧ (validateHop s).dummyProb = s.dummyProb := by
  unfold validateHop
  split
  · refine ⟨?_, rfl, rfl, rfl, rfl, rfl, rfl, rfl, rfl⟩
    show s.minHop < s.minHop + 30
    linarith
  · next h =>
    exact ⟨lt_of_not_le h, rfl, rfl, rfl, rfl, rfl, rfl, rfl, rfl⟩

theorem validatePadProb_spec (s : SettingsVals) :
    0 ≤ (validatePadProb s).padProb
    ∧ (validatePadProb s).padProb ≤ 1
    ∧ (validatePadProb s).minDelay = s.minDelay
    ∧ (validatePadProb s).maxDelay = s.maxDelay
    ∧ (validatePadProb s).minPadding = s.minPadding
    ∧ (validatePadProb s).maxPadding = s.maxPadding
    ∧ (validatePadProb s).minHop = s.minHop
    ∧ (validatePadProb s).maxHop = s.maxHop
    ∧ (validatePadProb s).minJitter = s.minJitter
    ∧ (validatePadProb s).maxJitter = s.maxJitter
    ∧ (validatePadProb s).dummyProb = s.dummyProb := by
  unfold validatePadProb
  split
  · refine ⟨?_, ?_, rfl, rfl, rfl, rfl, rfl, rfl, rfl, rfl, rfl⟩
    · exact le_max_left 0 _
    · show max 0 (min 1 s.padProb) ≤ 1
      exact max_le (by norm_num) (min_le_left 1 _)
  · next h =>
    push_neg at h
    exact ⟨h.1, h.2, rfl, rfl, rfl, rfl, rfl, rfl, rfl, rfl, rfl⟩

theorem validateDummyProb_spec (s : SettingsVals) :
    0 ≤ (validateDummyProb s).dummyProb
    ∧ (validateDummyProb s).dummyProb ≤ 1
    ∧ (validateDummyProb s).minDelay = s.minDelay
    ∧ (validateDummyProb s).maxDelay = s.maxDelay
    ∧ (validateDummyProb s).minPadding = s.minPadding
    ∧ (validateDummyProb s).maxPadding = s.maxPadding
    ∧ (validateDummyProb s).minHop = s.minHop
    ∧ (validateDummyProb s).maxHop = s.maxHop
    ∧ (validateDummyProb s).minJitter = s.minJitter
    ∧ (validateDummyProb s).maxJitter = s.maxJitter
    ∧ (validateDummyProb s).padProb = s.padProb := by
  unfold validateDummyProb
  split
  · refine ⟨?_, ?_, rfl, rfl, rfl, rfl, rfl, rfl, rfl, rfl, rfl⟩
    · exact le_max_left 0 _
    · show max 0 (min 1 s.dummyProb) ≤ 1
      exact max_le (by norm_num) (min_le_left 1 _)
  · next h =>
    push_neg at h
    exact ⟨h.1, h.2, rfl, rfl, rfl, rfl, rfl, rfl, rfl, rfl, rfl⟩

/-- Claim C8 (amended): after `_validate_settings`, the delay, padding and
hop bound pairs satisfy `min < max` (an out-of-order pair has its upper
bound raised above the lower one) and both probabilities are clamped into
`[0, 1]`; validation is total and never rejects.  The jitter bounds,
however, are never validated: they pass through unchanged, so
`MIN_JITTER <= MAX_JITTER` is not guaranteed. -/
theorem C8_validate (s : SettingsVals) :
    (validateSettings s).minDelay < (validateSettings s).maxDelay
    ∧ (validateSettings s).minPadding < (validateSettings s).maxPadding
    ∧ (validateSettings s).minHop < (validateSettings s).maxHop
    ∧ 0 ≤ (validateSettings s).padProb
    ∧ (validateSettings s).padProb ≤ 1
    ∧ 0 ≤ (validateSettings s).dummyProb
    ∧ (validateSettings s).dummyProb ≤ 1
    ∧ (validateSettings s).minJitter = s.minJitter
    ∧ (validateSettings s).maxJitter = s.maxJitter := by
  obtain ⟨dlt, dp1, dp2, dh1, dh2, dj1, dj2, dq1, dq2⟩ :=
    validateDelay_spec s
  obtain ⟨plt, pd1, pd2, ph1, ph2, pj1, pj2, pq1, pq2⟩ :=
    validatePaddingBounds_spec (validateDelay s)
  obtain ⟨hlt, hd1, hd2, hp1, hp2, hj1, hj2, hq1, hq2⟩ :=
    validateHop_spec (validatePaddingBounds (validateDelay s))
  obtain ⟨r0, r1, rd1, rd2, rp1, rp2, rh1, rh2, rj1, rj2, rq⟩ :=
    validatePadProb_spec (validateHop (validatePaddingBounds (validateDelay s)))
  obtain ⟨u0, u1, ud1, ud2, up1, up2, uh1, uh2, uj1, uj2, uq⟩ :=
    validateDummyProb_spec
      (validatePadProb (validateHop (validatePaddingBounds (validateDelay s))))
  unfold validateSettings
  refine ⟨?_, ?_, ?_, ?_, ?_, ?_, ?_, ?_, ?_⟩
  · rw [ud1, ud2, rd1, rd2, hd1, hd2, pd1, pd2]
    exact dlt
  · rw [up1, up2, rp1, rp2, hp1, hp2]
    exact plt
  · rw [uh1, uh2, rh1, rh2]
    exact hlt
  · rw [uq]
    exact r0
  · rw [uq]
    exact r1
  · exact u0
  · exact u1
  · rw [uj1, rj1, hj1, pj1, dj1]
  · rw [uj2, rj2, hj2, pj2, dj2]

/-- Counterexample to C8 as stated: caller-supplied jitter bounds
`MIN_JITTER = 5`, `MAX_JITTER = 1` survive validation inverted, violating
the claimed `min <= max` invariant for every bound pair. -/
theorem C8_counterexample :
    (validateSettings ⟨0, 1, 0, 1, 0, 1, 5, 1, 0, 0⟩).maxJitter
      < (validateSettings ⟨0, 1, 0, 1, 0, 1, 5, 1, 0, 0⟩).minJitter := by
  norm_num [validateSettings, validateDelay, validatePaddingBounds, validateHop,
    validatePadProb, validateDummyProb]

/-! ## The size-normalization bucket (C1, C2, C7) -/

theorem clog2Fuel_eq (fuel : ℕ) : ∀ n : ℕ, n ≤ fuel → clog2Fuel fuel n = Nat.clog 2 n := by
  induction fuel with
  | zero =>
    intro n hn
    have hn0 : n = 0 := by omega
    subst hn0
    simp [clog2Fuel]
  | succ fuel ih =>
    intro n hn
    rw [clog2Fuel]
    split
    · next h1 => exact (Nat.clog_of_right_le_one h1 2).symm
    · next h1 =>
      push_neg at h1
      rw [ih ((n + 1) / 2) (by omega)]
      conv_rhs => rw [Nat.clog_of_two_le (by norm_num) (show 2 ≤ n by omega)]
      norm_num

theorem clog2_eq (n : ℕ) : clog2 n = Nat.clog 2 n := clog2Fuel_eq n n (le_refl n)

theorem log2Fuel_eq (fuel : ℕ) : ∀ n : ℕ, n ≤ fuel → log2Fuel fuel n = Nat.log 2 n := by
  induction fuel with
  | zero =>
    intro n hn
    have hn0 : n = 0 := by omega
    subst hn0
    simp [log2Fuel]
  | succ fuel ih =>
    intro n hn
    rw [log2Fuel]
    split
    · next h1 =>
      exact (Nat.log_of_lt (by omega)).symm
    · next h1 =>
      push_neg at h1
      rw [ih (n / 2) (by omega)]
      conv_rhs => rw [Nat.log_of_one_lt_of_le (by norm_num) (show 2 ≤ n by omega)]

theorem log2_eq (n : ℕ) : log2 n = Nat.log 2 n := log2Fuel_eq n n (le_refl n)

theorem le_two_zpow_ceilLog2 {q : ℚ} (hq : 0 < q) : q ≤ (2 : ℚ) ^ ceilLog2 q := by
  rw [ceilLog2]
  split
  · next h1 =>
    rw [clog2_eq]
    have hceil : (0 : ℤ) < ⌈q⌉ := Int.ceil_pos.mpr hq
    have hcast : ((⌈q⌉.toNat : ℤ) : ℚ) = (⌈q⌉ : ℚ) := by
      rw [Int.toNat_of_nonneg hceil.le]
    have hle : ⌈q⌉.toNat ≤ 2 ^ Nat.clog 2 ⌈q⌉.toNat :=
      Nat.le_pow_clog (by norm_num) _
    calc q ≤ (⌈q⌉ : ℚ) := Int.le_ceil q
      _ = ((⌈q⌉.toNat : ℤ) : ℚ) := hcast.symm
      _ ≤ ((2 ^ Nat.clog 2 ⌈q⌉.toNat : ℕ) : ℚ) := by exact_mod_cast hle
      _ = (2 : ℚ) ^ ((Nat.clog 2 ⌈q⌉.toNat : ℤ)) := by
        rw [zpow_natCast]
        push_cast
        rfl
  · next h1 =>
    push_neg at h1
    rw [log2_eq]
    have hinv1 : 1 < q⁻¹ := (one_lt_inv₀ hq).mpr h1
    have hfl1 : (1 : ℤ) ≤ ⌊q⁻¹⌋ := by
      rw [Int.le_floor]
      exact_mod_cast hinv1.le
    have hne0 : ⌊q⁻¹⌋.toNat ≠ 0 := by omega
    have hpow : ((2 : ℚ)) ^ (Nat.log 2 ⌊q⁻¹⌋.toNat) ≤ q⁻¹ := by
      have h2 : (2 ^ Nat.log 2 ⌊q⁻¹⌋.toNat : ℕ) ≤ ⌊q⁻¹⌋.toNat :=
        Nat.pow_log_le_self 2 hne0
      calc ((2 : ℚ)) ^ (Nat.log 2 ⌊q⁻¹⌋.toNat)
          = ((2 ^ Nat.log 2 ⌊q⁻¹⌋.toNat : ℕ) : ℚ) := by push_cast; rfl
        _ ≤ ((⌊q⁻¹⌋.toNat : ℕ) : ℚ) := by exact_mod_cast h2
        _ = ((⌊q⁻¹⌋ : ℤ) : ℚ) := by
          exact_mod_cast Int.toNat_of_nonneg (by omega : (0 : ℤ) ≤ ⌊q⁻¹⌋)
        _ ≤ q⁻¹ := Int.floor_le q⁻¹
    rw [zpow_neg, zpow_natCast]
    exact le_inv_of_le_inv₀ (by positivity) hpow

theorem ceilLog2_min {q : ℚ} (hq : 0 < q) {j : ℤ} (hj : q ≤ (2 : ℚ) ^ j) :
    ceilLog2 q ≤ j := by
  rw [ceilLog2]
  split
  · next h1 =>
    rw [clog2_eq]
    have hj0 : 0 ≤ j := by
      by_contra hneg
      push_neg at hneg
      have hlt : (2 : ℚ) ^ j < 1 := zpow_lt_one_of_neg₀ (by norm_num) hneg
      linarith
    lift j to ℕ using hj0 with jn
    rw [zpow_natCast] at hj
    have h2 : ⌈q⌉ ≤ ((2 ^ jn : ℕ) : ℤ) := by
      rw [Int.ceil_le]
      push_cast
      exact hj
    have h3 : ⌈q⌉.toNat ≤ 2 ^ jn := Int.toNat_le.mpr h2
    have h4 := (Nat.le_pow_iff_clog_le (by norm_num)).mp h3
    exact_mod_cast h4
  · next h1 =>
    push_neg at h1
    rw [log2_eq]
    by_contra hcon
    push_neg at hcon
    have hinv1 : 1 < q⁻¹ := (one_lt_inv₀ hq).mpr h1
    have hfl1 : (1 : ℤ) ≤ ⌊q⁻¹⌋ := by
      rw [Int.le_floor]
      exact_mod_cast hinv1.le
    have hj2 : (2 : ℚ) ^ j ≤ (2 : ℚ) ^ (-((Nat.log 2 ⌊q⁻¹⌋.toNat : ℤ)) - 1) :=
      zpow_le_zpow_right₀ (by norm_num) (by omega)
    have hq2 : q ≤ (2 : ℚ) ^ (-((Nat.log 2 ⌊q⁻¹⌋.toNat : ℤ)) - 1) := le_trans hj hj2
    have hrw : (-((Nat.log 2 ⌊q⁻¹⌋.toNat : ℤ)) - 1)
        = -(((Nat.log 2 ⌊q⁻¹⌋.toNat + 1 : ℕ) : ℤ)) := by push_cast; ring
    rw [hrw, zpow_neg, zpow_natCast] at hq2
    have hinv : ((2 : ℚ)) ^ (Nat.log 2 ⌊q⁻¹⌋.toNat + 1) ≤ q⁻¹ :=
      le_inv_of_le_inv₀ hq hq2
    have hfloor : ((2 ^ (Nat.log 2 ⌊q⁻¹⌋.toNat + 1) : ℕ) : ℤ) ≤ ⌊q⁻¹⌋ := by
      rw [Int.le_floor]
      push_cast
      push_cast at hinv
      exact hinv
    have hsucc := Nat.lt_pow_succ_log_self (b := 2) (by norm_num) ⌊q⁻¹⌋.toNat
    rw [Nat.succ_eq_add_one] at hsucc
    omega

theorem ceilLog2_nonneg_iff {q : ℚ} (hq : 0 < q) :
    0 ≤ ceilLog2 q ↔ 1 / 2 < q := by
  rw [ceilLog2]
  split
  · next h1 =>
    constructor
    · intro _
      linarith
    · intro _
      exact Int.natCast_nonneg _
  · next h1 =>
    push_neg at h1
    rw [log2_eq]
    have hinv1 : 1 < q⁻¹ := (one_lt_inv₀ hq).mpr h1
    have hfl1 : (1 : ℤ) ≤ ⌊q⁻¹⌋ := by
      rw [Int.le_floor]
      exact_mod_cast hinv1.le
    constructor
    · intro h0
      have hL0 : Nat.log 2 ⌊q⁻¹⌋.toNat = 0 := by omega
      have hlt2 : ⌊q⁻¹⌋.toNat < 2 := by
        rcases Nat.log_eq_zero_iff.mp hL0 with h | h
        · exact h
        · omega
      have hflt : (⌊q⁻¹⌋ : ℚ) ≤ 1 := by exact_mod_cast (by omega : ⌊q⁻¹⌋ ≤ 1)
      have hq2 : q⁻¹ < 2 := by
        have hlf := Int.lt_floor_add_one q⁻¹
        linarith
      have hmul := mul_lt_mul_of_pos_left hq2 hq
      rw [mul_inv_cancel₀ (ne_of_gt hq)] at hmul
      linarith
    · intro hhalf
      have hq2 : q⁻¹ < 2 := by
        rw [inv_eq_one_div, div_lt_iff₀ hq]
        linarith
      have hfl2 : ⌊q⁻¹⌋ < 2 := Int.floor_lt.mpr (by exact_mod_cast hq2)
      have hL0 : Nat.log 2 ⌊q⁻¹⌋.toNat = 0 :=
        Nat.log_eq_zero_iff.mpr (Or.inl (by omega))
      rw [hL0]
      simp

theorem normalizeMessageSize_of_one_le (hist m : List ℕ) (hne : hist ≠ [])
    (havg : 1 ≤ avgSize hist) :
    normalizeMessageSize hist m =
      if m.length < targetSize hist then
        some (pushHistory hist m.length,
          m ++ sizeDelim ++ List.replicate (targetSize hist - m.length) fillerByte)
      else some (pushHistory hist m.length, m) := by
  have hk0 : 0 ≤ ceilLog2 (avgSize hist) := by
    rw [ceilLog2, if_pos havg]
    exact Int.natCast_nonneg _
  have hemp : hist.isEmpty = false := by
    cases hist
    · exact absurd rfl hne
    · rfl
  simp only [normalizeMessageSize, hemp, Bool.false_eq_true, if_false]
  rw [if_neg (not_le.mpr (by linarith)), if_pos hk0]
  rfl

/-- Claim C1 (amended): with a non-empty history of mean at least 1, a
message shorter than the bucket is emitted as the message, the 8-byte size
delimiter, and `target - len(msg)` filler bytes — total length
`target + 8`, not `target` (the length of the delimiter itself is not counted
against the bucket); a message of at least the bucket length is returned
unchanged, never truncated. -/
theorem C1_normalize_length (hist m : List ℕ) (hne : hist ≠ [])
    (havg : 1 ≤ avgSize hist) :
    (m.length < targetSize hist →
      normalizeMessageSize hist m
        = some (pushHistory hist m.length,
            m ++ sizeDelim ++ List.replicate (targetSize hist - m.length) fillerByte)
      ∧ (m ++ sizeDelim ++ List.replicate (targetSize hist - m.length) fillerByte).length
          = targetSize hist + 8)
    ∧ (targetSize hist ≤ m.length →
        normalizeMessageSize hist m = some (pushHistory hist m.length, m)) := by
  rw [normalizeMessageSize_of_one_le hist m hne havg]
  constructor
  · intro hlt
    rw [if_pos hlt]
    refine ⟨rfl, ?_⟩
    simp only [List.length_append, List.length_replicate,
      show sizeDelim.length = 8 from rfl]
    omega
  · intro hge
    rw [if_neg (not_lt.mpr hge)]

/-- Witness for C1 at the spec scenario: history `[5]`, message of 5
bytes. -/
theorem C1_witness :
    ((List.replicate 5 65).length < targetSize [5] →
      normalizeMessageSize [5] (List.replicate 5 65)
        = some (pushHistory [5] (List.replicate 5 65).length,
            List.replicate 5 65 ++ sizeDelim ++
              List.replicate (targetSize [5] - (List.replicate 5 65).length) fillerByte)
      ∧ (List.replicate 5 65 ++ sizeDelim ++
          List.replicate (targetSize [5] - (List.replicate 5 65).length) fillerByte).length
          = targetSize [5] + 8)
    ∧ (targetSize [5] ≤ (List.replicate 5 65).length →
        normalizeMessageSize [5] (List.replicate 5 65)
          = some (pushHistory [5] (List.replicate 5 65).length, List.replicate 5 65)) :=
  C1_normalize_length [5] (List.replicate 5 65) (by decide) (by norm_num [avgSize])

/-- Counterexample to C1 as stated: in the very scenario of the spec
(history `[5]`, mean 5, target 8, input length 5) the emitted message has
length 16, not the target length 8. -/
theorem C1_counterexample :
    targetSize [5] = 8
    ∧ (normalizeMessageSize [5] (List.replicate 5 65)).map (fun p => p.2.length)
        = some 16
    ∧ (16 : ℕ) ≠ 8 := by
  have h5 : avgSize [5] = 5 := by norm_num [avgSize]
  have hc : ceilLog2 (avgSize [5]) = 3 := by
    rw [h5, ceilLog2, if_pos (by norm_num)]
    norm_num
    decide
  have ht : targetSize [5] = 8 := by
    rw [targetSize, hc]
    rfl
  refine ⟨ht, ?_, by decide⟩
  rw [normalizeMessageSize_of_one_le [5] (List.replicate 5 65) (by decide)
    (by rw [h5]; norm_num)]
  rw [if_pos (by rw [ht]; decide)]
  rw [ht]
  rfl

/-- Claim C2 (amended): the padding and decoy transforms are total, but
`normalize_message_size` is not: it raises exactly when the recorded mean
size is 0 (a `math.log2` domain error, reachable by first normalizing an
empty message), or when the mean is positive but at most 1/2 and the
current message is empty (`b"X" * padding_needed` with a float operand).
Success is characterized by: empty history, or mean above 1/2, or positive
mean with a non-empty message. -/
theorem C2_transform_totality (hist m : List ℕ) :
    (normalizeMessageSize hist m).isSome = true
      ↔ (hist = [] ∨ 1 / 2 < avgSize hist ∨ (0 < avgSize hist ∧ m ≠ [])) := by
  cases hist with
  | nil => simp [normalizeMessageSize]
  | cons a t =>
    have hne : (a :: t) ≠ ([] : List ℕ) := by simp
    by_cases havg : avgSize (a :: t) ≤ 0
    · have hnone : normalizeMessageSize (a :: t) m = none := by
        simp only [normalizeMessageSize, List.isEmpty_cons, Bool.false_eq_true, if_false]
        rw [if_pos havg]
      rw [hnone]
      simp only [Option.isSome_none, Bool.false_eq_true, false_iff]
      intro hcon
      rcases hcon with h | h | h
      · exact hne h
      · linarith
      · linarith [h.1]
    · push_neg at havg
      by_cases hk : 0 ≤ ceilLog2 (avgSize (a :: t))
      · have hsome : (normalizeMessageSize (a :: t) m).isSome = true := by
          simp only [normalizeMessageSize, List.isEmpty_cons, Bool.false_eq_true, if_false]
          rw [if_neg (not_le.mpr havg), if_pos hk]
          split <;> rfl
        rw [hsome]
        simp only [true_iff]
        exact Or.inr (Or.inl ((ceilLog2_nonneg_iff havg).mp hk))
      · by_cases hm : m.length = 0
        · have hnone : normalizeMessageSize (a :: t) m = none := by
            simp only [normalizeMessageSize, List.isEmpty_cons, Bool.false_eq_true, if_false]
            rw [if_neg (not_le.mpr havg), if_neg hk, if_pos hm]
          rw [hnone]
          simp only [Option.isSome_none, Bool.false_eq_true, false_iff]
          intro hcon
          rcases hcon with h | h | h
          · exact hne h
          · exact hk ((ceilLog2_nonneg_iff havg).mpr h)
          · exact h.2 (List.length_eq_zero.mp hm)
        · have hsome : ∃ v, normalizeMessageSize (a :: t) m = some v := by
            simp only [normalizeMessageSize, List.isEmpty_cons, Bool.false_eq_true, if_false]
            rw [if_neg (not_le.mpr havg), if_neg hk, if_neg hm]
            exact ⟨_, rfl⟩
          obtain ⟨v, hv⟩ := hsome
          rw [hv]
          simp only [Option.isSome_some, true_iff]
          exact Or.inr (Or.inr ⟨havg, fun hmnil => hm (by rw [hmnil]; rfl)⟩)

/-- Counterexample to C2 as stated: normalizing the empty message from a
fresh state records size 0; the very next call divides by the history
length, obtains mean 0, and `math.log2(0.0)` raises `ValueError` — the
transform is not total. -/
theorem C2_counterexample :
    normalizeMessageSize [] [] = some ([0], [])
    ∧ normalizeMessageSize [0] [65] = none := by
  constructor
  · rfl
  · norm_num [normalizeMessageSize, avgSize]

/-- Claim C7 (amended): whenever the recorded mean is positive, the bucket
exponent computed by `normalize_message_size` yields `2 ^ ceil(log2 mean)`,
the smallest integer-exponent power of two at least the mean (an integer
when the mean is at least 1); the mean is taken over the history excluding
the current message, whose raw length is appended afterwards; and the
history is capped at the most recent 100 lengths.  When the mean is zero
the call raises instead of computing a bucket. -/
theorem C7_target_smallest_power (hist m : List ℕ)
    (hpos : 0 < avgSize hist) :
    avgSize hist ≤ (2 : ℚ) ^ ceilLog2 (avgSize hist)
    ∧ (∀ j : ℤ, avgSize hist ≤ (2 : ℚ) ^ j → ceilLog2 (avgSize hist) ≤ j)
    ∧ (∀ h2 out, normalizeMessageSize hist m = some (h2, out) →
        h2 = pushHistory hist m.length)
    ∧ (pushHistory hist m.length).length ≤ 100 := by
  refine ⟨le_two_zpow_ceilLog2 hpos, fun j hj => ceilLog2_min hpos hj, ?_, ?_⟩
  · intro h2 out hsome
    simp only [normalizeMessageSize] at hsome
    split at hsome
    · simp only [Option.some.injEq, Prod.mk.injEq] at hsome
      exact hsome.1.symm
    · split at hsome
      · exact absurd hsome (by simp)
      · split at hsome
        · split at hsome
          · simp only [Option.some.injEq, Prod.mk.injEq] at hsome
            exact hsome.1.symm
          · simp only [Option.some.injEq, Prod.mk.injEq] at hsome
            exact hsome.1.symm
        · split at hsome
          · exact absurd hsome (by simp)
          · simp only [Option.some.injEq, Prod.mk.injEq] at hsome
            exact hsome.1.symm
  · simp only [pushHistory]
    split
    · next hgt =>
      rw [List.length_drop]
      omega
    · next hle =>
      omega

/-- Witness for C7: history `[5]`, message `[65]`. -/
theorem C7_witness :
    avgSize [5] ≤ (2 : ℚ) ^ ceilLog2 (avgSize [5])
    ∧ (∀ j : ℤ, avgSize [5] ≤ (2 : ℚ) ^ j → ceilLog2 (avgSize [5]) ≤ j)
    ∧ (∀ h2 out, normalizeMessageSize [5] [65] = some (h2, out) →
        h2 = pushHistory [5] ([65] : List ℕ).length)
    ∧ (pushHistory [5] ([65] : List ℕ).length).length ≤ 100 :=
  C7_target_smallest_power [5] [65] (by norm_num [avgSize])

/-- Counterexample to C7 as stated: a call with the non-empty history
`[0, 0]` computes no bucket at all — the mean is 0 and `math.log2`
raises. -/
theorem C7_counterexample :
    ([0, 0] : List ℕ) ≠ [] ∧ normalizeMessageSize [0, 0] [66] = none := by
  constructor
  · decide
  · norm_num [normalizeMessageSize, avgSize]

end MRN
